import Mathlib

/-!
Verification of the workspace compilation pipeline of `cc_workspace/main.py`:
the ignore-pattern policy (`File.should_ignore`, `Workspace.get_ignore_patterns`),
glob resolution (`File.resolve`, `Group.resolve_patterns`), validation
(`validate_workspace_files`) and compilation (`compile_workspace`).

The filesystem is modelled as a list of entries (path segments, regular-file
flag, size), all paths relative to the base directory.  Python's `fnmatch`
matching is modelled by a tokenizer plus matcher over character lists.
-/

set_option maxHeartbeats 1000000

namespace CCW

/-! ### String utilities

Structural reimplementations of the string operations the source uses,
so that every definition evaluates by kernel reduction. -/

def tailsList {α : Type} : List α → List (List α)
  | [] => [[]]
  | c :: r => (c :: r) :: tailsList r

/-- Substring test: Python's `needle in hay` on strings. -/
def strContains (hay needle : String) : Bool :=
  (tailsList hay.data).any (fun t => needle.data.isPrefixOf t)

def strStartsWith (s pre : String) : Bool :=
  pre.data.isPrefixOf s.data

def strDrop (s : String) (n : Nat) : String :=
  String.mk (s.data.drop n)

def strTake (s : String) (n : Nat) : String :=
  String.mk (s.data.take n)

/-- Join strings with a separator (Python's `sep.join`). -/
def joinSep (sep : String) : List String → String
  | [] => ""
  | [x] => x
  | x :: xs => x ++ sep ++ joinSep sep xs

/-- Split a character list at every path separator. -/
def splitSlash (cur : List Char) : List Char → List (List Char)
  | [] => [cur.reverse]
  | c :: rest =>
    if c = '/' then cur.reverse :: splitSlash [] rest
    else splitSlash (c :: cur) rest

/-- Path components of a relative path string, as produced by
`pathlib.Path(s).parts`: split on the separator, dropping empty and
single-dot components. -/
def pathParts (s : String) : List String :=
  ((splitSlash [] s.data).map String.mk).filter (fun t => t != "" && t != ".")

/-! ### fnmatch-style glob matching

Model of `fnmatch.fnmatch` (POSIX case-sensitive): wildcards are a star
(matches any run of characters), a question mark (one character) and a
bracketed character class (with optional leading negation and ranges).
An unterminated bracket is a literal character, as in `fnmatch.translate`. -/

inductive GlobTok where
  | star : GlobTok
  | anyc : GlobTok
  | lit : Char → GlobTok
  | cls : Bool → List Char → GlobTok
deriving DecidableEq, Repr

/-- Split a character list at the first closing bracket. -/
def findClose : List Char → Option (List Char × List Char)
  | [] => none
  | c :: rest =>
    if c = ']' then some ([], rest)
    else
      match findClose rest with
      | some p => some (c :: p.1, p.2)
      | none => none

theorem findClose_length :
    ∀ (cs : List Char) (p : List Char × List Char),
      findClose cs = some p → p.2.length < cs.length := by
  intro cs
  induction cs with
  | nil => intro p h; simp [findClose] at h
  | cons c rest ih =>
    intro p h
    simp only [findClose] at h
    split at h
    · cases h
      simp
    · cases hfc : findClose rest with
      | none => rw [hfc] at h; cases h
      | some q =>
        rw [hfc] at h
        cases h
        have := ih q hfc
        simp
        omega

/-- Parse the body of a character class, `neg` recording a leading
negation marker already consumed.  A closing bracket that immediately
follows the opening (or the negation marker) is a literal member. -/
def classSplitCore (neg : Bool) (r1 : List Char) :
    Option (Bool × List Char × List Char) :=
  match r1 with
  | ']' :: t =>
    match findClose t with
    | some p => some (neg, ']' :: p.1, p.2)
    | none => none
  | r2 =>
    match findClose r2 with
    | some p => some (neg, p.1, p.2)
    | none => none

theorem classSplitCore_length {neg : Bool} {r1 : List Char}
    {q : Bool × List Char × List Char}
    (h : classSplitCore neg r1 = some q) : q.2.2.length ≤ r1.length := by
  unfold classSplitCore at h
  split at h
  · rename_i t
    cases hfc : findClose t with
    | none => rw [hfc] at h; cases h
    | some p =>
      rw [hfc] at h
      cases h
      have := findClose_length t p hfc
      simp
      omega
  · cases hfc : findClose r1 with
    | none => rw [hfc] at h; cases h
    | some p =>
      rw [hfc] at h
      cases h
      have := findClose_length r1 p hfc
      simp
      omega

/-- Parse a character class after its opening bracket: optional negation
marker, then the class body up to the closing bracket. -/
def classSplit (r : List Char) : Option (Bool × List Char × List Char) :=
  match r with
  | [] => classSplitCore false []
  | c :: t => if c = '!' then classSplitCore true t else classSplitCore false (c :: t)

theorem classSplit_length {r : List Char} {q : Bool × List Char × List Char}
    (h : classSplit r = some q) : q.2.2.length ≤ r.length := by
  unfold classSplit at h
  match r with
  | [] => exact classSplitCore_length h
  | c :: t =>
    simp only at h
    split at h
    · have := classSplitCore_length h
      simp
      omega
    · exact classSplitCore_length h

/-- Tokenizer worker.  The fuel argument only forces structural
termination; `tokenizeFuel_spec` shows it is never exhausted when
starting from `tokenizePat`. -/
def tokenizeFuel : Nat → List Char → List GlobTok
  | 0, _ => []
  | _ + 1, [] => []
  | fuel + 1, c :: r =>
    if c = '*' then GlobTok.star :: tokenizeFuel fuel r
    else if c = '?' then GlobTok.anyc :: tokenizeFuel fuel r
    else if c = '[' then
      match classSplit r with
      | some q => GlobTok.cls q.1 q.2.1 :: tokenizeFuel fuel q.2.2
      | none => GlobTok.lit '[' :: tokenizeFuel fuel r
    else GlobTok.lit c :: tokenizeFuel fuel r

/-- The fuel argument is slack: any two sufficient fuels agree. -/
theorem tokenizeFuel_spec :
    ∀ (n m : Nat) (cs : List Char), cs.length ≤ n → cs.length ≤ m →
      tokenizeFuel n cs = tokenizeFuel m cs := by
  intro n
  induction n with
  | zero =>
    intro m cs hn _
    have : cs = [] := List.length_eq_zero.mp (Nat.le_zero.mp hn)
    subst this
    cases m <;> rfl
  | succ n ih =>
    intro m cs hn hm
    cases cs with
    | nil => cases m <;> rfl
    | cons c r =>
      cases m with
      | zero => simp at hm
      | succ m =>
        simp only [tokenizeFuel]
        have hrn : r.length ≤ n := by simp at hn; omega
        have hrm : r.length ≤ m := by simp at hm; omega
        split
        · rw [ih m r hrn hrm]
        · split
          · rw [ih m r hrn hrm]
          · split
            · cases hq : classSplit r with
              | some q =>
                simp only [hq]
                have hql := classSplit_length hq
                rw [ih m q.2.2 (le_trans hql hrn) (le_trans hql hrm)]
              | none =>
                simp only [hq]
                rw [ih m r hrn hrm]
            · rw [ih m r hrn hrm]

/-- Tokenize a glob pattern into wildcard tokens. -/
def tokenizePat (cs : List Char) : List GlobTok :=
  tokenizeFuel cs.length cs

/-- Does a character belong to a class body (with ranges)? -/
def classMatch (c : Char) : List Char → Bool
  | a :: '-' :: b :: rest => (decide (a ≤ c) && decide (c ≤ b)) || classMatch c rest
  | a :: rest => a == c || classMatch c rest
  | [] => false

/-- Matcher worker; the fuel argument only forces structural
termination (each call consumes a token or a character). -/
def matchFuel : Nat → List GlobTok → List Char → Bool
  | 0, _, _ => false
  | _ + 1, [], [] => true
  | _ + 1, [], _ :: _ => false
  | fuel + 1, GlobTok.star :: ts, s =>
    matchFuel fuel ts s ||
      (match s with
       | [] => false
       | _ :: s2 => matchFuel fuel (GlobTok.star :: ts) s2)
  | fuel + 1, GlobTok.anyc :: ts, s =>
    (match s with
     | [] => false
     | _ :: s2 => matchFuel fuel ts s2)
  | fuel + 1, GlobTok.lit c :: ts, s =>
    (match s with
     | [] => false
     | c2 :: s2 => c == c2 && matchFuel fuel ts s2)
  | fuel + 1, GlobTok.cls neg body :: ts, s =>
    (match s with
     | [] => false
     | c2 :: s2 => (classMatch c2 body != neg) && matchFuel fuel ts s2)

/-- The fuel argument is slack: any two sufficient fuels agree. -/
theorem matchFuel_spec :
    ∀ (n m : Nat) (ts : List GlobTok) (s : List Char),
      ts.length + s.length < n → ts.length + s.length < m →
      matchFuel n ts s = matchFuel m ts s := by
  intro n
  induction n with
  | zero => intro m ts s hn hm; omega
  | succ n ih =>
    intro m ts s hn hm
    cases m with
    | zero => omega
    | succ m =>
      cases ts with
      | nil => cases s <;> rfl
      | cons t ts =>
        cases t with
        | star =>
          cases s with
          | nil =>
            simp only [matchFuel]
            have h1 : ts.length + ([] : List Char).length < n := by simp at hn ⊢; omega
            have h2 : ts.length + ([] : List Char).length < m := by simp at hm ⊢; omega
            rw [ih m ts [] h1 h2]
          | cons c s2 =>
            simp only [matchFuel]
            have h1 : ts.length + (c :: s2).length < n := by simp at hn ⊢; omega
            have h2 : ts.length + (c :: s2).length < m := by simp at hm ⊢; omega
            have h3 : (GlobTok.star :: ts).length + s2.length < n := by
              simp at hn ⊢; omega
            have h4 : (GlobTok.star :: ts).length + s2.length < m := by
              simp at hm ⊢; omega
            rw [ih m ts (c :: s2) h1 h2, ih m (GlobTok.star :: ts) s2 h3 h4]
        | anyc =>
          cases s with
          | nil => rfl
          | cons c s2 =>
            simp only [matchFuel]
            have h1 : ts.length + s2.length < n := by simp at hn; omega
            have h2 : ts.length + s2.length < m := by simp at hm; omega
            rw [ih m ts s2 h1 h2]
        | lit c =>
          cases s with
          | nil => rfl
          | cons c2 s2 =>
            simp only [matchFuel]
            have h1 : ts.length + s2.length < n := by simp at hn; omega
            have h2 : ts.length + s2.length < m := by simp at hm; omega
            rw [ih m ts s2 h1 h2]
        | cls neg body =>
          cases s with
          | nil => rfl
          | cons c2 s2 =>
            simp only [matchFuel]
            have h1 : ts.length + s2.length < n := by simp at hn; omega
            have h2 : ts.length + s2.length < m := by simp at hm; omega
            rw [ih m ts s2 h1 h2]

/-- Match a token list against a character list (anchored at both ends,
as `fnmatch` matches the whole string). -/
def matchToks (ts : List GlobTok) (s : List Char) : Bool :=
  matchFuel (ts.length + s.length + 1) ts s

/-- Model of `fnmatch.fnmatch(path, pat)` on POSIX. -/
def fnmatchStr (path pat : String) : Bool :=
  matchToks (tokenizePat pat.data) path.data

/-! ### Filesystem model

An `FSEntry` is one node visible under the base directory: its path
segments relative to the base, whether it is a regular file (a symlink to
a regular file counts as one, as `Path.is_file` follows links) and its
size in bytes. -/

structure FSEntry where
  parts : List String
  isFile : Bool
  size : Nat
deriving DecidableEq, Repr

/-- The path string of an entry relative to the base directory
(`str(path.relative_to(base_path))`). -/
def relPath (e : FSEntry) : String := joinSep "/" e.parts

/-- An entry with exactly the given (normalized) path. -/
def fsFind (fs : List FSEntry) (p : String) : Option FSEntry :=
  fs.find? (fun e => e.parts == pathParts p)

/-- Python `Path.exists()`: true when the path is an entry or a directory
prefix of one. -/
def fsExists (fs : List FSEntry) (p : String) : Bool :=
  fs.any (fun e => (pathParts p).isPrefixOf e.parts)

/-! ### Data model: File, Group, Workspace -/

inductive FileKind where
  | file : FileKind
  | pattern : FileKind
deriving DecidableEq, Repr

/-- `File` model: `description`, `path`, `kind` and the private
`_ignore_patterns` attribute (`none` until explicitly assigned; config
parsing never assigns it). -/
structure File where
  description : Option String := none
  path : String
  kind : FileKind := FileKind.file
  ignorePatternsOpt : Option (List String) := none
deriving DecidableEq, Repr

/-- The patterns of the single built-in category, keyed "default". -/
def defaultPatternList : List String :=
  [ "node_modules/", "venv/", ".env/", "__pycache__/", "*.pyc",
    "target/", "dist/", "build/", ".tox/", ".pytest_cache/",
    ".coverage", "coverage/", ".hypothesis/",
    "*.swp", ".DS_Store", ".idea/", ".vscode/", "*.sublime-*",
    ".project", ".settings/", ".classpath", "*.iml",
    "*.log", "tmp/", "temp/", "*.tmp", "*.bak", "*~",
    "*.egg-info/", "*.egg", "*.whl", "*.tar.gz", "*.zip",
    ".cc/", ".git/", ".hg/", ".svn/",
    "*.lock", "package-lock.json", "yarn.lock", "pnpm-lock.yaml",
    "go.sum" ]

/-- `File.DEFAULT_IGNORE_PATTERNS`: the built-in category table. -/
def DEFAULT_IGNORE_PATTERNS : List (String × List String) :=
  [("default", defaultPatternList)]

/-- All patterns of every built-in category, flattened. -/
def allDefaultPatterns : List String :=
  DEFAULT_IGNORE_PATTERNS.flatMap (fun kv => kv.2)

/-- The `File.ignore_patterns` property: the private set when assigned,
else all patterns of every built-in category. -/
def File.ignorePatterns (f : File) : List String :=
  match f.ignorePatternsOpt with
  | none => allDefaultPatterns
  | some ps => ps

/-- `File.should_ignore`: never for explicitly listed files; otherwise a
path with a dot-segment is always ignored, else the path is matched
against the ignore patterns (glob match when the pattern has a star,
substring containment otherwise). -/
def File.shouldIgnore (f : File) (path : String) : Bool :=
  if f.kind == FileKind.file then false
  else
    let p := if strStartsWith path "./" then strDrop path 2 else path
    if (pathParts p).any (fun seg => strStartsWith seg ".") then true
    else f.ignorePatterns.any (fun pat =>
      if strContains pat "*" then fnmatchStr p pat else strContains p pat)

/-! ### Glob expansion (`Path.glob` / `Path.rglob`) -/

/-- Segment-wise glob match: equal length, each path segment matched by
the corresponding pattern segment. -/
def segsMatch : List String → List String → Bool
  | [], [] => true
  | pseg :: ps, seg :: ss => fnmatchStr seg pseg && segsMatch ps ss
  | _, _ => false

/-- `base.glob(pat)`: non-recursive, segment-wise relative match. -/
def globMatch (pat : String) (parts : List String) : Bool :=
  segsMatch (pathParts pat) parts

/-- Remove every occurrence of "**/" left to right
(`path.replace("**/", "")`). -/
def stripRecChars : List Char → List Char
  | '*' :: '*' :: '/' :: rest => stripRecChars rest
  | c :: rest => c :: stripRecChars rest
  | [] => []

def stripRecMarker (s : String) : String :=
  String.mk (stripRecChars s.data)

/-- `base.rglob(pat)`, i.e. `glob("**/" + pat)`: the pattern segments
match at any depth below the base. -/
def rglobMatch (pat : String) (parts : List String) : Bool :=
  (List.range (parts.length + 1)).any
    (fun k => segsMatch (pathParts pat) (parts.drop k))

/-- Pattern expansion used by `File.resolve`: recursive descent with all
"**/" occurrences stripped when the path contains "**", a plain glob
otherwise. -/
def patMatch (specPath : String) (parts : List String) : Bool :=
  if strContains specPath "**" then
    rglobMatch (stripRecMarker specPath) parts
  else globMatch specPath parts

/-! ### Deterministic candidate ordering (`sorted(paths)`) -/

/-- Code-point comparison of strings (Python string `<`). -/
def charListLt : List Char → List Char → Bool
  | [], [] => false
  | [], _ :: _ => true
  | _ :: _, [] => false
  | a :: as, b :: bs =>
    if a.toNat < b.toNat then true
    else if b.toNat < a.toNat then false
    else charListLt as bs

def strLtB (a b : String) : Bool := charListLt a.data b.data

/-- Lexicographic order on path segment lists, the order in which
`sorted` lists `Path` objects. -/
def partsLe : List String → List String → Bool
  | [], _ => true
  | _ :: _, [] => false
  | a :: as, b :: bs => if a == b then partsLe as bs else strLtB a b

def insLe {α : Type} (le : α → α → Bool) (x : α) : List α → List α
  | [] => [x]
  | y :: ys => if le x y then x :: y :: ys else y :: insLe le x ys

def sortLe {α : Type} (le : α → α → Bool) : List α → List α
  | [] => []
  | x :: xs => insLe le x (sortLe le xs)

theorem mem_insLe {α : Type} (le : α → α → Bool) (x a : α) :
    ∀ l : List α, a ∈ insLe le x l ↔ a = x ∨ a ∈ l := by
  intro l
  induction l with
  | nil => simp [insLe]
  | cons y ys ih =>
    simp only [insLe]
    split
    · simp
    · simp [ih]
      tauto

theorem mem_sortLe {α : Type} (le : α → α → Bool) (a : α) :
    ∀ l : List α, a ∈ sortLe le l ↔ a ∈ l := by
  intro l
  induction l with
  | nil => simp [sortLe]
  | cons x xs ih => simp [sortLe, mem_insLe, ih]

/-! ### Resolution (`File.resolve`) -/

/-- Canonical relative form of an explicit path (what
`str((base / p).relative_to(base))` yields). -/
def canonPath (p : String) : String := joinSep "/" (pathParts p)

/-- `File.resolve`: a pattern spec expands its glob against the base,
sorts the candidates, and keeps non-empty regular files that are not
ignored; an explicit spec yields itself when the path is a non-empty
regular file (its `should_ignore` check never fires for explicit kind). -/
def File.resolve (f : File) (fs : List FSEntry) : List File :=
  if f.kind == FileKind.pattern then
    ((sortLe (fun e1 e2 => partsLe e1.parts e2.parts)
        (fs.filter (fun e => patMatch f.path e.parts))).filter
        (fun e => e.isFile && e.size != 0 && !(f.shouldIgnore (relPath e)))).map
      (fun e =>
        { description := f.description, path := relPath e,
          kind := FileKind.file, ignorePatternsOpt := none })
  else
    match fsFind fs f.path with
    | some e =>
      if e.isFile && decide (e.size > 0) then
        if f.shouldIgnore (canonPath f.path) then [] else [f]
      else []
    | none => []

/-! ### Groups and workspaces -/

structure Group where
  name : String
  description : Option String := none
  systemPrompt : String := ""
  files : List File := []
  symbols : List File := []
deriving DecidableEq, Repr

/-- One entry of a resolved group's `files` list: the dict
`\x7b"path": f.path, "description": f.description\x7d`. -/
structure ResolvedEntry where
  path : String
  description : Option String
deriving DecidableEq, Repr

/-- `Group.resolve_patterns` output: the group's `model_dump` with the
`files` key replaced by resolved path/description pairs. -/
structure GroupResolved where
  name : String
  description : Option String
  systemPrompt : String
  files : List ResolvedEntry
  symbols : List File
deriving DecidableEq, Repr

def Group.resolvePatterns (g : Group) (fs : List FSEntry) : GroupResolved :=
  { name := g.name
    description := g.description
    systemPrompt := g.systemPrompt
    files := (g.files.flatMap (fun f => f.resolve fs)).map
      (fun r => { path := r.path, description := r.description })
    symbols := g.symbols }

/-- `WorkspaceIgnore` config record. -/
structure WorkspaceIgnore where
  enabled : Bool := true
  patterns : List (String × List String) := []
  additional : List String := []
  categories : List String := ["default"]
deriving DecidableEq, Repr

structure Workspace where
  name : String
  description : Option String := none
  systemPrompt : String := ""
  groups : List Group := []
  ignore : WorkspaceIgnore := {}
deriving DecidableEq, Repr

/-- `Workspace.get_ignore_patterns`: empty when disabled; else defaults of
the listed categories that exist in the built-in table, then each custom
entry for a built-in category removes that category's defaults and adds
the custom patterns, then the additional patterns are added. -/
def Workspace.getIgnorePatterns (w : Workspace) : Finset String :=
  if !w.ignore.enabled then ∅
  else
    let base := w.ignore.categories.foldl
      (fun acc c =>
        match List.lookup c DEFAULT_IGNORE_PATTERNS with
        | some defaults => acc ∪ defaults.toFinset
        | none => acc) ∅
    let withOverrides := w.ignore.patterns.foldl
      (fun acc kv =>
        match List.lookup kv.1 DEFAULT_IGNORE_PATTERNS with
        | some defaults => (acc \ defaults.toFinset) ∪ kv.2.toFinset
        | none => acc) base
    withOverrides ∪ w.ignore.additional.toFinset

/-- The effective pattern set exactly as the specification (claim C2)
words it: for each category name listed in `categories`, the override
when present else that category's built-in defaults, all unioned, then
unioned with `additional`. -/
def specEffectivePatterns (w : Workspace) : Finset String :=
  if !w.ignore.enabled then ∅
  else
    (w.ignore.categories.foldl
      (fun acc c =>
        acc ∪ (match List.lookup c w.ignore.patterns with
          | some ov => ov.toFinset
          | none =>
            match List.lookup c DEFAULT_IGNORE_PATTERNS with
            | some defaults => defaults.toFinset
            | none => ∅)) ∅)
    ∪ w.ignore.additional.toFinset

/-- `Workspace.resolve_patterns`: name, description, system prompt and
per-group resolution; the ignore section is not part of the output. -/
structure WorkspaceResolved where
  name : String
  description : Option String
  systemPrompt : String
  groups : List GroupResolved
deriving DecidableEq, Repr

def Workspace.resolvePatterns (w : Workspace) (fs : List FSEntry) : WorkspaceResolved :=
  { name := w.name
    description := w.description
    systemPrompt := w.systemPrompt
    groups := w.groups.map (fun g => g.resolvePatterns fs) }

/-! ### Validation (`validate_workspace_files`) -/

/-- A path containing one of the glob metacharacters is exempt from the
existence check on file entries. -/
def hasWildcardChar (p : String) : Bool :=
  p.data.any (fun c => c = '*' || c = '?' || c = '[' || c = ']')

def validateWorkspaceFiles (w : Workspace) (fs : List FSEntry) : List String :=
  w.groups.flatMap (fun g =>
    g.files.filterMap (fun f =>
      if hasWildcardChar f.path then none
      else if fsExists fs f.path then none
      else some ("File not found: " ++ f.path))
    ++ g.symbols.filterMap (fun s =>
      if fsExists fs s.path then none
      else some ("Symbol file not found: " ++ s.path)))

/-! ### JSON serialization (`json.dumps(data, indent=2)`) -/

def hexDig (n : Nat) : Char :=
  if n < 10 then Char.ofNat (48 + n) else Char.ofNat (87 + n)

def hex4 (n : Nat) : String :=
  String.mk [hexDig (n / 4096 % 16), hexDig (n / 256 % 16), hexDig (n / 16 % 16), hexDig (n % 16)]

/-- Escape one character as Python's default (ASCII-only) JSON encoder
does. -/
def jsonEscapeChar (c : Char) : String :=
  if c = '"' then "\\\""
  else if c = '\\' then "\\\\"
  else if c = '\n' then "\\n"
  else if c = '\r' then "\\r"
  else if c = '\t' then "\\t"
  else if c.toNat = 8 then "\\b"
  else if c.toNat = 12 then "\\f"
  else if c.toNat < 32 || c.toNat > 126 then
    if c.toNat < 65536 then "\\u" ++ hex4 c.toNat
    else
      "\\u" ++ hex4 (55296 + (c.toNat - 65536) / 1024) ++
        "\\u" ++ hex4 (56320 + (c.toNat - 65536) % 1024)
  else String.mk [c]

def jsonQuote (s : String) : String :=
  "\"" ++ joinSep "" (s.data.map jsonEscapeChar) ++ "\""

def jsonOptStr : Option String → String
  | none => "null"
  | some s => jsonQuote s

def indentStr (n : Nat) : String := String.mk (List.replicate n ' ')

/-- A JSON object at closing-indent `n` from already-rendered field
lines (which carry their own leading indent). -/
def jsonObj (n : Nat) (fields : List String) : String :=
  match fields with
  | [] => "\x7b\x7d"
  | _ => "\x7b\n" ++ joinSep ",\n" fields ++ "\n" ++ indentStr n ++ "\x7d"

/-- A JSON array at closing-indent `n` from already-rendered items. -/
def jsonArr (n : Nat) (items : List String) : String :=
  match items with
  | [] => "[]"
  | _ => "[\n" ++ joinSep ",\n" items ++ "\n" ++ indentStr n ++ "]"

def jsonField (n : Nat) (key val : String) : String :=
  indentStr n ++ jsonQuote key ++ ": " ++ val

def kindStr : FileKind → String
  | FileKind.file => "file"
  | FileKind.pattern => "pattern"

def resolvedFileJson (r : ResolvedEntry) : String :=
  jsonObj 8 [jsonField 10 "path" (jsonQuote r.path),
             jsonField 10 "description" (jsonOptStr r.description)]

def symbolFileJson (f : File) : String :=
  jsonObj 8 [jsonField 10 "description" (jsonOptStr f.description),
             jsonField 10 "path" (jsonQuote f.path),
             jsonField 10 "kind" (jsonQuote (kindStr f.kind))]

def groupJsonStr (g : GroupResolved) : String :=
  jsonObj 4 [jsonField 6 "name" (jsonQuote g.name),
             jsonField 6 "description" (jsonOptStr g.description),
             jsonField 6 "system_prompt" (jsonQuote g.systemPrompt),
             jsonField 6 "files" (jsonArr 6 (g.files.map (fun r => indentStr 8 ++ resolvedFileJson r))),
             jsonField 6 "symbols" (jsonArr 6 (g.symbols.map (fun s => indentStr 8 ++ symbolFileJson s)))]

def workspaceJsonStr (w : WorkspaceResolved) : String :=
  jsonObj 0 [jsonField 2 "name" (jsonQuote w.name),
             jsonField 2 "description" (jsonOptStr w.description),
             jsonField 2 "system_prompt" (jsonQuote w.systemPrompt),
             jsonField 2 "groups" (jsonArr 2 (w.groups.map (fun g => indentStr 4 ++ groupJsonStr g)))]

/-! ### Compilation (`compile_workspace`) -/

def serializeWorkspace (w : Workspace) (fs : List FSEntry) : String :=
  workspaceJsonStr (w.resolvePatterns fs)

/-- Environment behaviour of the final write: it either succeeds or
raises after `k` characters reached the (already truncated) file. -/
inductive WriteOutcome where
  | success : WriteOutcome
  | failAfter : Nat → WriteOutcome
deriving DecidableEq, Repr

inductive CompileErr where
  | schema : CompileErr
  | validation : String → CompileErr
  | ioWrite : CompileErr
deriving DecidableEq, Repr

/-- `compile_workspace` over the artifact state: `cfg` is the parsed
config (`none` when parsing/shape validation already failed), `prev` the
previous artifact content.  Validation errors are raised before the
output file is opened; the output is opened in truncating write mode and
then the serialized data is written. -/
def compileWorkspace (cfg : Option Workspace) (fs : List FSEntry)
    (prev : String) (wr : WriteOutcome) : Option CompileErr × String :=
  match cfg with
  | none => (some CompileErr.schema, prev)
  | some w =>
    let errs := validateWorkspaceFiles w fs
    if errs.isEmpty then
      let out := serializeWorkspace w fs
      match wr with
      | WriteOutcome.success => (none, out)
      | WriteOutcome.failAfter k => (some CompileErr.ioWrite, strTake out k)
    else
      (some (CompileErr.validation
        (joinSep "\n" ("Invalid workspace:" :: errs))), prev)

/-! ## Helper lemmas -/

theorem shouldIgnore_kind_file (f : File) (hk : f.kind = FileKind.file)
    (p : String) : f.shouldIgnore p = false := by
  simp [File.shouldIgnore, hk]

theorem any_ext {α : Type} (p : α → Bool) (l1 l2 : List α)
    (h : ∀ x, x ∈ l1 ↔ x ∈ l2) : l1.any p = l2.any p := by
  cases h1 : l1.any p with
  | true =>
    obtain ⟨x, hx, hpx⟩ := List.any_eq_true.mp h1
    exact (List.any_eq_true.mpr ⟨x, (h x).mp hx, hpx⟩).symm
  | false =>
    cases h2 : l2.any p with
    | false => rfl
    | true =>
      obtain ⟨x, hx, hpx⟩ := List.any_eq_true.mp h2
      have h3 := List.any_eq_true.mpr ⟨x, (h x).mpr hx, hpx⟩
      rw [h1] at h3
      exact absurd h3 Bool.false_ne_true

theorem resolve_explicit_eq (f : File) (fs : List FSEntry)
    (hk : f.kind = FileKind.file) :
    f.resolve fs =
      (match fsFind fs f.path with
       | some e => if e.isFile && decide (e.size > 0) then [f] else []
       | none => []) := by
  have hbeq : (f.kind == FileKind.pattern) = false := by rw [hk]; rfl
  simp only [File.resolve, hbeq, Bool.false_eq_true, if_false]
  cases fsFind fs f.path with
  | none => rfl
  | some e =>
    simp only [shouldIgnore_kind_file f hk, Bool.false_eq_true, if_false]

theorem resolve_pattern_mem (f : File) (fs : List FSEntry) (rel : String)
    (hk : f.kind = FileKind.pattern) :
    rel ∈ (f.resolve fs).map (fun g => g.path) ↔
      ∃ e, e ∈ fs ∧ relPath e = rel ∧ patMatch f.path e.parts = true ∧
        e.isFile = true ∧ e.size ≠ 0 ∧ f.shouldIgnore rel = false := by
  have hbeq : (f.kind == FileKind.pattern) = true := by rw [hk]; rfl
  simp only [File.resolve, hbeq, if_true, List.map_map, Function.comp,
    List.mem_map, List.mem_filter, mem_sortLe,
    Bool.and_eq_true, Bool.not_eq_true', bne_iff_ne, ne_eq]
  constructor
  · rintro ⟨e, ⟨⟨hmem, hmatch⟩, ⟨⟨hif, hsz⟩, hsi⟩⟩, hpath⟩
    have hpath' : relPath e = rel := hpath
    subst hpath'
    exact ⟨e, hmem, rfl, hmatch, hif, hsz, hsi⟩
  · rintro ⟨e, hmem, hpath, hmatch, hif, hsz, hsi⟩
    subst hpath
    exact ⟨e, ⟨⟨hmem, hmatch⟩, ⟨⟨hif, hsz⟩, hsi⟩⟩, rfl⟩

theorem fileCheck_eq_some (fs : List FSEntry) (f : File) (msg : String) :
    (if hasWildcardChar f.path then none
     else if fsExists fs f.path then none
     else some ("File not found: " ++ f.path)) = some msg ↔
    hasWildcardChar f.path = false ∧ fsExists fs f.path = false ∧
      msg = "File not found: " ++ f.path := by
  split_ifs with h1 h2
  · simp [h1]
  · simp [h1, h2]
  · simp [Bool.not_eq_true] at h1 h2
    simp [h1, h2, eq_comm]

theorem symCheck_eq_some (fs : List FSEntry) (s : File) (msg : String) :
    (if fsExists fs s.path then none
     else some ("Symbol file not found: " ++ s.path)) = some msg ↔
    fsExists fs s.path = false ∧ msg = "Symbol file not found: " ++ s.path := by
  split_ifs with h1
  · simp [h1]
  · simp [Bool.not_eq_true] at h1
    simp [h1, eq_comm]

theorem validate_mem_iff (w : Workspace) (fs : List FSEntry) (msg : String) :
    msg ∈ validateWorkspaceFiles w fs ↔
      ∃ g, g ∈ w.groups ∧
        ((∃ f, f ∈ g.files ∧ hasWildcardChar f.path = false ∧
            fsExists fs f.path = false ∧ msg = "File not found: " ++ f.path) ∨
         (∃ s, s ∈ g.symbols ∧ fsExists fs s.path = false ∧
            msg = "Symbol file not found: " ++ s.path)) := by
  simp only [validateWorkspaceFiles, List.mem_flatMap, List.mem_append,
    List.mem_filterMap, fileCheck_eq_some, symCheck_eq_some]

theorem validate_nil_file_exists {w : Workspace} {fs : List FSEntry}
    (hv : validateWorkspaceFiles w fs = []) {g : Group} (hg : g ∈ w.groups)
    {f : File} (hf : f ∈ g.files) (hwc : hasWildcardChar f.path = false) :
    fsExists fs f.path = true := by
  by_contra h
  have hfalse : fsExists fs f.path = false := by
    cases hb : fsExists fs f.path
    · rfl
    · exact absurd hb h
  have hmem : ("File not found: " ++ f.path) ∈ validateWorkspaceFiles w fs :=
    (validate_mem_iff w fs _).mpr ⟨g, hg, Or.inl ⟨f, hf, hwc, hfalse, rfl⟩⟩
  rw [hv] at hmem
  exact absurd hmem (List.not_mem_nil _)

theorem validate_nil_symbol_exists {w : Workspace} {fs : List FSEntry}
    (hv : validateWorkspaceFiles w fs = []) {g : Group} (hg : g ∈ w.groups)
    {s : File} (hs : s ∈ g.symbols) : fsExists fs s.path = true := by
  by_contra h
  have hfalse : fsExists fs s.path = false := by
    cases hb : fsExists fs s.path
    · rfl
    · exact absurd hb h
  have hmem : ("Symbol file not found: " ++ s.path) ∈ validateWorkspaceFiles w fs :=
    (validate_mem_iff w fs _).mpr ⟨g, hg, Or.inr ⟨s, hs, hfalse, rfl⟩⟩
  rw [hv] at hmem
  exact absurd hmem (List.not_mem_nil _)

theorem compile_validation_failure (w : Workspace) (fs : List FSEntry)
    (prev : String) (wr : WriteOutcome)
    (h : validateWorkspaceFiles w fs ≠ []) :
    compileWorkspace (some w) fs prev wr =
      (some (CompileErr.validation
        (joinSep "\n" ("Invalid workspace:" :: validateWorkspaceFiles w fs))), prev) := by
  have hemp : (validateWorkspaceFiles w fs).isEmpty = false := by
    cases hl : validateWorkspaceFiles w fs
    · exact absurd hl h
    · rfl
  simp [compileWorkspace, hemp]

theorem compile_no_validation_errors (w : Workspace) (fs : List FSEntry)
    (prev : String) (wr : WriteOutcome)
    (h : validateWorkspaceFiles w fs = []) :
    compileWorkspace (some w) fs prev wr =
      (match wr with
       | WriteOutcome.success => (none, serializeWorkspace w fs)
       | WriteOutcome.failAfter k =>
         (some CompileErr.ioWrite, strTake (serializeWorkspace w fs) k)) := by
  have hemp : (validateWorkspaceFiles w fs).isEmpty = true := by rw [h]; rfl
  simp [compileWorkspace, hemp]

theorem catFold_eq (cats : List String) (acc : Finset String) :
    cats.foldl (fun acc c =>
        match List.lookup c DEFAULT_IGNORE_PATTERNS with
        | some defaults => acc ∪ defaults.toFinset
        | none => acc) acc
      = acc ∪ (if "default" ∈ cats then defaultPatternList.toFinset else ∅) := by
  induction cats generalizing acc with
  | nil => simp
  | cons c cs ih =>
    simp only [List.foldl_cons]
    by_cases hc : c = "default"
    · subst hc
      have hl : List.lookup "default" DEFAULT_IGNORE_PATTERNS
          = some defaultPatternList := rfl
      rw [hl, ih]
      by_cases hm : "default" ∈ cs
      · simp [hm, Finset.union_assoc, Finset.union_self]
      · simp [hm]
    · have hb : (c == "default") = false := by
        rw [beq_eq_false_iff_ne]
        exact hc
      have hl : List.lookup c DEFAULT_IGNORE_PATTERNS = none := by
        simp [DEFAULT_IGNORE_PATTERNS, List.lookup, hb]
      rw [hl, ih]
      have hne : ¬("default" = c) := fun habs => hc habs.symm
      simp [List.mem_cons, hne]

theorem rglobMatch_iff (pat : String) (parts : List String) :
    rglobMatch pat parts = true ↔
      ∃ k, segsMatch (pathParts pat) (List.drop k parts) = true := by
  unfold rglobMatch
  rw [List.any_eq_true]
  constructor
  · rintro ⟨k, hk, hm⟩
    exact ⟨k, hm⟩
  · rintro ⟨k, hm⟩
    by_cases hk : k ≤ parts.length
    · exact ⟨k, List.mem_range.mpr (by omega), hm⟩
    · refine ⟨parts.length, List.mem_range.mpr (by omega), ?_⟩
      have h1 : List.drop k parts = [] := List.drop_eq_nil_of_le (by omega)
      have h2 : List.drop parts.length parts = [] := List.drop_eq_nil_of_le le_rfl
      rw [h2, ← h1]
      exact hm

/-- `base/path` denotes an existing, non-empty regular file. -/
def isNonEmptyFile (fs : List FSEntry) (p : String) : Bool :=
  match fsFind fs p with
  | some e => e.isFile && decide (e.size > 0)
  | none => false

/-! ## Claims -/

def c1File : File := { path := "**/*", kind := FileKind.pattern }

def c1Group : Group := { name := "g", files := [c1File] }

def c1Workspace : Workspace :=
  { name := "w", groups := [c1Group], ignore := { enabled := false } }

def c1Fs : List FSEntry := [⟨["node_modules", "package.json"], true, 2⟩]

/-- Claim C1 as stated is false: with `ignore.enabled = false` the
workspace's effective pattern set is empty and the candidate
`node_modules/package.json` matches the pattern, is a non-empty regular
file and has no dot segment, yet compilation still excludes it (the
pipeline never consults the workspace's ignore config and filters under
the built-in defaults). -/
theorem c1_counterexample :
    c1Workspace.getIgnorePatterns = ∅ ∧
    patMatch c1File.path ["node_modules", "package.json"] = true ∧
    (pathParts "node_modules/package.json").any
      (fun seg => strStartsWith seg ".") = false ∧
    (c1Workspace.resolvePatterns c1Fs).groups.map (fun g => g.files) = [[]] :=
  ⟨by decide, by decide, by decide, by decide⟩

/-- Claim C1, amended: compilation never consults the workspace's
IgnoreConfig — `resolve_patterns` output is invariant under any change of
the ignore section — and a file spec whose private pattern set was never
assigned (as is the case for every spec parsed from a config) filters
under the built-in default pattern set. -/
theorem c1_compilation_ignores_workspace_config
    (w : Workspace) (fs : List FSEntry) (ig : WorkspaceIgnore)
    (f : File) (p : String) (hf : f.ignorePatternsOpt = none) :
    Workspace.resolvePatterns { w with ignore := ig } fs = w.resolvePatterns fs ∧
    f.shouldIgnore p =
      File.shouldIgnore { f with ignorePatternsOpt := some allDefaultPatterns } p :=
  ⟨rfl, by simp [File.shouldIgnore, File.ignorePatterns, hf]⟩

theorem c1_witness :
    Workspace.resolvePatterns { c1Workspace with ignore := {} } c1Fs =
      c1Workspace.resolvePatterns c1Fs ∧
    c1File.shouldIgnore "node_modules/x" =
      File.shouldIgnore { c1File with ignorePatternsOpt := some allDefaultPatterns }
        "node_modules/x" :=
  c1_compilation_ignores_workspace_config c1Workspace c1Fs {} c1File
    "node_modules/x" rfl

def c2Workspace : Workspace :=
  { name := "w",
    ignore := { enabled := true, patterns := [("default", ["x"])],
                additional := [], categories := [] } }

/-- Claim C2 as stated is false: with no category listed, the spec's
formula yields the empty set, but `get_ignore_patterns` still applies the
override entry for the unlisted built-in category and returns its
patterns. -/
theorem c2_counterexample :
    c2Workspace.getIgnorePatterns = {"x"} ∧
    specEffectivePatterns c2Workspace = ∅ ∧
    c2Workspace.getIgnorePatterns ≠ specEffectivePatterns c2Workspace :=
  ⟨by decide, by decide, by decide⟩

/-- Claim C2, amended: the set is empty when disabled; with no overrides
it is the defaults of the listed built-in categories plus `additional`;
an override entry for the built-in category replaces (never merges with)
that category's defaults and applies even when the category is not
listed in `categories`. -/
theorem c2_get_ignore_patterns_behaviour (w : Workspace) :
    (w.ignore.enabled = false → w.getIgnorePatterns = ∅) ∧
    (w.ignore.enabled = true → w.ignore.patterns = [] →
      w.getIgnorePatterns =
        (if "default" ∈ w.ignore.categories then defaultPatternList.toFinset
         else ∅) ∪ w.ignore.additional.toFinset) ∧
    (∀ ov : List String, w.ignore.enabled = true →
      w.ignore.patterns = [("default", ov)] →
      w.getIgnorePatterns = ov.toFinset ∪ w.ignore.additional.toFinset) := by
  refine ⟨?_, ?_, ?_⟩
  · intro h
    simp [Workspace.getIgnorePatterns, h]
  · intro he hp
    simp only [Workspace.getIgnorePatterns, he, hp, Bool.not_true,
      if_false, List.foldl_nil]
    rw [catFold_eq]
    simp
  · intro ov he hp
    simp only [Workspace.getIgnorePatterns, he, hp, Bool.not_true,
      if_false, List.foldl_cons, List.foldl_nil]
    rw [catFold_eq]
    have hl : List.lookup "default" DEFAULT_IGNORE_PATTERNS
        = some defaultPatternList := rfl
    simp only [hl]
    by_cases hm : "default" ∈ w.ignore.categories
    · simp [hm, Finset.sdiff_self]
    · simp [hm, Finset.empty_sdiff]

def c2WitnessWorkspace : Workspace :=
  { name := "w",
    ignore := { enabled := true,
                patterns := [("default", ["custom.lock", ".env"])],
                additional := ["extra.ignore"], categories := ["default"] } }

theorem c2_witness :
    c2WitnessWorkspace.getIgnorePatterns =
      (["custom.lock", ".env"] : List String).toFinset ∪
        (["extra.ignore"] : List String).toFinset :=
  (c2_get_ignore_patterns_behaviour c2WitnessWorkspace).2.2
    ["custom.lock", ".env"] rfl rfl

/-- Claim C3: for a pattern-derived candidate whose normalized relative
path (leading "./" stripped) has a segment starting with a dot,
`should_ignore` returns true for every file spec of pattern kind,
whatever its active pattern set — the dot rule precedes pattern
matching and cannot be configured away. -/
theorem c3_dot_path_exclusion_absolute (f : File) (p : String)
    (hk : f.kind = FileKind.pattern)
    (hdot : (pathParts (if strStartsWith p "./" then strDrop p 2 else p)).any
        (fun seg => strStartsWith seg ".") = true) :
    f.shouldIgnore p = true := by
  have hbeq : (f.kind == FileKind.file) = false := by rw [hk]; rfl
  simp [File.shouldIgnore, hbeq, hdot]

def c3File : File :=
  { path := "**/*", kind := FileKind.pattern, ignorePatternsOpt := some [] }

theorem c3_witness : c3File.shouldIgnore ".git/config" = true :=
  c3_dot_path_exclusion_absolute c3File ".git/config" rfl (by decide)

/-- Claim C4: an explicit file spec resolves to exactly the singleton of
itself when the path denotes an existing non-empty regular file and to
the empty list otherwise; the ignore rules play no role (the resolution
is fully determined by the filesystem lookup), so at most one entry is
produced. -/
theorem c4_explicit_resolution (f : File) (fs : List FSEntry)
    (hk : f.kind = FileKind.file) :
    f.resolve fs =
      (match fsFind fs f.path with
       | some e => if e.isFile && decide (e.size > 0) then [f] else []
       | none => []) ∧
    (f.resolve fs).length ≤ 1 := by
  have he := resolve_explicit_eq f fs hk
  refine ⟨he, ?_⟩
  rw [he]
  cases fsFind fs f.path with
  | none => simp
  | some e =>
    by_cases hc : (e.isFile && decide (e.size > 0)) = true
    · simp [hc]
    · simp [hc]

def c4File : File :=
  { path := ".git/important.txt", kind := FileKind.file,
    description := some "Important file" }

def c4Fs : List FSEntry :=
  [⟨[".git", "important.txt"], true, 9⟩, ⟨[".git"], false, 0⟩]

theorem c4_witness : c4File.resolve c4Fs = [c4File] := by
  rw [(c4_explicit_resolution c4File c4Fs rfl).1]
  decide

/-- Claim C5: a message is in the validation report exactly when some
group has a literal (wildcard-free) file entry or a symbol entry whose
path does not exist, with the stated message text; and a non-empty
report makes compilation fail with the single validation error that
joins every collected message, leaving the artifact untouched. -/
theorem c5_validation_collects_all (w : Workspace) (fs : List FSEntry)
    (prev : String) (wr : WriteOutcome) :
    (∀ msg, msg ∈ validateWorkspaceFiles w fs ↔
      ∃ g, g ∈ w.groups ∧
        ((∃ f, f ∈ g.files ∧ hasWildcardChar f.path = false ∧
            fsExists fs f.path = false ∧ msg = "File not found: " ++ f.path) ∨
         (∃ s, s ∈ g.symbols ∧ fsExists fs s.path = false ∧
            msg = "Symbol file not found: " ++ s.path))) ∧
    (validateWorkspaceFiles w fs ≠ [] →
      compileWorkspace (some w) fs prev wr =
        (some (CompileErr.validation
          (joinSep "\n" ("Invalid workspace:" :: validateWorkspaceFiles w fs))),
         prev)) :=
  ⟨fun msg => validate_mem_iff w fs msg, compile_validation_failure w fs prev wr⟩

def c5Group : Group :=
  { name := "g", files := [{ path := "nope.py" }],
    symbols := [{ path := "missing.py" }] }

def c5Workspace : Workspace := { name := "w", groups := [c5Group] }

theorem c5_witness :
    compileWorkspace (some c5Workspace) [] "" WriteOutcome.success =
      (some (CompileErr.validation
        "Invalid workspace:\nFile not found: nope.py\nSymbol file not found: missing.py"),
       "") := by
  rw [(c5_validation_collects_all c5Workspace [] "" WriteOutcome.success).2
    (by decide)]
  decide

def c6File : File := { path := "empty.txt", kind := FileKind.file }

def c6Group : Group := { name := "g", files := [c6File] }

def c6Workspace : Workspace := { name := "w", groups := [c6Group] }

def c6Fs : List FSEntry := [⟨["empty.txt"], true, 0⟩]

/-- Claim C6 as stated is false: the explicit entry `empty.txt` exists
as a zero-length file, so validation passes and compilation succeeds,
yet the file appears nowhere in the resolved output — it is silently
dropped without any validation failure. -/
theorem c6_counterexample :
    c6File ∈ c6Group.files ∧ c6File.kind = FileKind.file ∧
    validateWorkspaceFiles c6Workspace c6Fs = [] ∧
    (compileWorkspace (some c6Workspace) c6Fs "" WriteOutcome.success).1 = none ∧
    (c6Group.resolvePatterns c6Fs).files = [] :=
  ⟨by decide, rfl, by decide, by rfl, by decide⟩

/-- Claim C6, amended: when compilation validates cleanly, an explicit
file entry either appears in its group's resolved output or its path
fails to denote a non-empty regular file — in which case the entry
is dropped without error, though (unless its path carries a wildcard
character) the path itself must still exist; symbol entries are carried
verbatim into the output and each symbol path must exist. -/
theorem c6_no_silent_drop (w : Workspace) (fs : List FSEntry)
    (g : Group) (hg : g ∈ w.groups) (f : File) (hf : f ∈ g.files)
    (hk : f.kind = FileKind.file)
    (hv : validateWorkspaceFiles w fs = []) :
    (f.path ∈ (g.resolvePatterns fs).files.map (fun r => r.path) ∨
      (isNonEmptyFile fs f.path = false ∧
        (hasWildcardChar f.path = true ∨ fsExists fs f.path = true))) ∧
    (g.resolvePatterns fs).symbols = g.symbols ∧
    (∀ s, s ∈ g.symbols → fsExists fs s.path = true) := by
  refine ⟨?_, rfl, fun s hs => validate_nil_symbol_exists hv hg hs⟩
  by_cases hne : isNonEmptyFile fs f.path = true
  · left
    have hres : f.resolve fs = [f] := by
      rw [resolve_explicit_eq f fs hk]
      unfold isNonEmptyFile at hne
      cases hff : fsFind fs f.path with
      | none => rw [hff] at hne; exact absurd hne (by decide)
      | some e =>
        rw [hff] at hne
        have hne2 : (e.isFile && decide (e.size > 0)) = true := hne
        simp [hne2]
    have hflat : f ∈ g.files.flatMap (fun fsp => fsp.resolve fs) :=
      List.mem_flatMap.mpr ⟨f, hf, by rw [hres]; exact List.mem_singleton.mpr rfl⟩
    unfold Group.resolvePatterns
    refine List.mem_map.mpr ⟨⟨f.path, f.description⟩, ?_, rfl⟩
    exact List.mem_map.mpr ⟨f, hflat, rfl⟩
  · right
    have hne' : isNonEmptyFile fs f.path = false := by
      cases h' : isNonEmptyFile fs f.path
      · rfl
      · exact absurd h' hne
    refine ⟨hne', ?_⟩
    by_cases hwc : hasWildcardChar f.path = true
    · exact Or.inl hwc
    · refine Or.inr ?_
      have hwcf : hasWildcardChar f.path = false := by
        cases h' : hasWildcardChar f.path
        · rfl
        · exact absurd h' hwc
      exact validate_nil_file_exists hv hg hf hwcf

def c6wFile : File := { path := "ok.py", kind := FileKind.file }

def c6wGroup : Group :=
  { name := "g", files := [c6wFile], symbols := [{ path := "sym.py" }] }

def c6wWorkspace : Workspace := { name := "w", groups := [c6wGroup] }

def c6wFs : List FSEntry := [⟨["ok.py"], true, 3⟩, ⟨["sym.py"], true, 2⟩]

theorem c6_witness :
    (c6wFile.path ∈ (c6wGroup.resolvePatterns c6wFs).files.map (fun r => r.path) ∨
      (isNonEmptyFile c6wFs c6wFile.path = false ∧
        (hasWildcardChar c6wFile.path = true ∨
          fsExists c6wFs c6wFile.path = true))) ∧
    (c6wGroup.resolvePatterns c6wFs).symbols = c6wGroup.symbols ∧
    (∀ s, s ∈ c6wGroup.symbols → fsExists c6wFs s.path = true) :=
  c6_no_silent_drop c6wWorkspace c6wFs c6wGroup (by decide) c6wFile (by decide)
    rfl (by decide)

def c7Workspace : Workspace := { name := "w" }

/-- Claim C7 as stated is false: the output file is opened in truncating
write mode before the data is written, so a failing write (IOError)
terminates compilation in the Failed state with the artifact truncated
to a prefix of the new content — here empty — rather than left at its
previous state. -/
theorem c7_counterexample :
    compileWorkspace (some c7Workspace) [] "OLD" (WriteOutcome.failAfter 0) =
      (some CompileErr.ioWrite, "") ∧ ("" : String) ≠ "OLD" := by
  constructor
  · rfl
  · decide

/-- Claim C7, amended: SchemaError and ValidationError are raised before
the output file is opened, so those failures leave the artifact at its
previous state; an IOError during the write leaves the artifact a
(possibly empty) prefix of the newly serialized output, because the file
was already truncated on open; only Success writes the full artifact. -/
theorem c7_failure_artifact_state (cfg : Option Workspace) (fs : List FSEntry)
    (prev : String) (wr : WriteOutcome) :
    ((compileWorkspace cfg fs prev wr).1 = some CompileErr.schema →
      (compileWorkspace cfg fs prev wr).2 = prev) ∧
    (∀ m, (compileWorkspace cfg fs prev wr).1 = some (CompileErr.validation m) →
      (compileWorkspace cfg fs prev wr).2 = prev) ∧
    ((compileWorkspace cfg fs prev wr).1 = some CompileErr.ioWrite →
      ∃ w k, cfg = some w ∧
        (compileWorkspace cfg fs prev wr).2 = strTake (serializeWorkspace w fs) k) ∧
    ((compileWorkspace cfg fs prev wr).1 = none →
      ∃ w, cfg = some w ∧ validateWorkspaceFiles w fs = [] ∧
        (compileWorkspace cfg fs prev wr).2 = serializeWorkspace w fs) := by
  cases cfg with
  | none =>
    refine ⟨fun _ => rfl, fun m hm => ?_, fun hio => ?_, fun hn => ?_⟩
    · rfl
    · simp [compileWorkspace] at hio
    · simp [compileWorkspace] at hn
  | some w =>
    by_cases hval : validateWorkspaceFiles w fs = []
    · rw [compile_no_validation_errors w fs prev wr hval]
      cases wr with
      | success =>
        refine ⟨fun hs => ?_, fun m hm => ?_, fun hio => ?_, fun _ => ?_⟩
        · simp at hs
        · simp at hm
        · simp at hio
        · exact ⟨w, rfl, hval, rfl⟩
      | failAfter k =>
        refine ⟨fun hs => ?_, fun m hm => ?_, fun _ => ?_, fun hn => ?_⟩
        · simp at hs
        · simp at hm
        · exact ⟨w, k, rfl, rfl⟩
        · simp at hn
    · rw [compile_validation_failure w fs prev wr hval]
      refine ⟨fun hs => ?_, fun m _ => rfl, fun hio => ?_, fun hn => ?_⟩
      · simp at hs
      · simp at hio
      · simp at hn

theorem c7_witness :
    ∃ w, (some c7Workspace : Option Workspace) = some w ∧
      validateWorkspaceFiles w [] = [] ∧
      (compileWorkspace (some c7Workspace) [] "OLD" WriteOutcome.success).2 =
        serializeWorkspace w [] :=
  (c7_failure_artifact_state (some c7Workspace) [] "OLD"
    WriteOutcome.success).2.2.2 (by rfl)

/-- Claim C8: for a pattern spec, a relative path is in the resolved
output exactly when some filesystem entry bears it, survives the
regular-file / non-empty / ignore filters, and matches the glob — where
a path containing "**" is matched by recursive descent with every "**/"
occurrence stripped, and a path without "**" is matched as a single
non-recursive segment-wise glob; recursive matching means matching the
pattern segments at some depth below the base. -/
theorem c8_pattern_expansion_cases (f : File) (fs : List FSEntry) (rel : String)
    (hk : f.kind = FileKind.pattern) :
    (rel ∈ (f.resolve fs).map (fun g => g.path) ↔
      ∃ e, e ∈ fs ∧ relPath e = rel ∧
        (if strContains f.path "**" then rglobMatch (stripRecMarker f.path) e.parts
         else globMatch f.path e.parts) = true ∧
        e.isFile = true ∧ e.size ≠ 0 ∧ f.shouldIgnore rel = false) ∧
    (∀ pat parts, rglobMatch pat parts = true ↔
      ∃ k, segsMatch (pathParts pat) (List.drop k parts) = true) := by
  constructor
  · have h := resolve_pattern_mem f fs rel hk
    simpa [patMatch] using h
  · exact fun pat parts => rglobMatch_iff pat parts

def c8File : File := { path := "**/*.py", kind := FileKind.pattern }

def c8Fs : List FSEntry := [⟨["src", "a.py"], true, 1⟩]

theorem c8_witness :
    (("src/a.py" : String) ∈ (c8File.resolve c8Fs).map (fun g => g.path) ↔
      ∃ e, e ∈ c8Fs ∧ relPath e = "src/a.py" ∧
        (if strContains c8File.path "**" then
          rglobMatch (stripRecMarker c8File.path) e.parts
         else globMatch c8File.path e.parts) = true ∧
        e.isFile = true ∧ e.size ≠ 0 ∧
        c8File.shouldIgnore "src/a.py" = false) ∧
    (∀ pat parts, rglobMatch pat parts = true ↔
      ∃ k, segsMatch (pathParts pat) (List.drop k parts) = true) :=
  c8_pattern_expansion_cases c8File c8Fs "src/a.py" rfl

/-- Claim C9: compilation is a pure function of the config and the
filesystem — a successful compile writes the same bytes whatever the
previous artifact content was — and the only internally unordered
collection, the ignore-pattern set, influences filtering only through
membership: pattern lists with the same members ignore the same paths. -/
theorem c9_deterministic_idempotent (cfg : Option Workspace) (fs : List FSEntry)
    (prev1 prev2 : String)
    (h : (compileWorkspace cfg fs prev1 WriteOutcome.success).1 = none) :
    (compileWorkspace cfg fs prev1 WriteOutcome.success).2 =
      (compileWorkspace cfg fs prev2 WriteOutcome.success).2 ∧
    (∀ (f : File) (ps1 ps2 : List String) (p : String),
      (∀ q, q ∈ ps1 ↔ q ∈ ps2) →
      File.shouldIgnore { f with ignorePatternsOpt := some ps1 } p =
        File.shouldIgnore { f with ignorePatternsOpt := some ps2 } p) := by
  constructor
  · cases cfg with
    | none => simp [compileWorkspace] at h
    | some w =>
      by_cases hval : validateWorkspaceFiles w fs = []
      · rw [compile_no_validation_errors w fs prev1 _ hval,
          compile_no_validation_errors w fs prev2 _ hval]
      · rw [compile_validation_failure w fs prev1 _ hval] at h
        simp at h
  · intro f ps1 ps2 p hmem
    by_cases hk : (f.kind == FileKind.file) = true
    · simp [File.shouldIgnore, hk]
    · have hk' : (f.kind == FileKind.file) = false := by
        cases hkk : (f.kind == FileKind.file)
        · rfl
        · exact absurd hkk hk
      simp only [File.shouldIgnore, File.ignorePatterns, hk',
        Bool.false_eq_true, if_false]
      split
      · split
        · rfl
        · exact any_ext _ ps1 ps2 hmem
      · split
        · rfl
        · exact any_ext _ ps1 ps2 hmem

def c9Workspace : Workspace := { name := "w" }

def c9File : File := { path := "**/*", kind := FileKind.pattern }

theorem c9_witness :
    (compileWorkspace (some c9Workspace) [] "a" WriteOutcome.success).2 =
      (compileWorkspace (some c9Workspace) [] "b" WriteOutcome.success).2 ∧
    File.shouldIgnore { c9File with ignorePatternsOpt := some ["b", "a"] } "x/y" =
      File.shouldIgnore { c9File with ignorePatternsOpt := some ["a", "b", "a"] }
        "x/y" := by
  have h := c9_deterministic_idempotent (some c9Workspace) [] "a" "b" (by rfl)
  refine ⟨h.1, h.2 c9File ["b", "a"] ["a", "b", "a"] "x/y" ?_⟩
  intro q
  constructor
  · intro hq
    simp only [List.mem_cons, List.not_mem_nil, or_false] at hq ⊢
    tauto
  · intro hq
    simp only [List.mem_cons, List.not_mem_nil, or_false] at hq ⊢
    tauto

/-- Claim C10: resolving a group only replaces its `files` field with
the flattened resolved path/description pairs; name, description, system
prompt and the symbols list are carried into the output verbatim,
symbols in particular unresolved. -/
theorem c10_group_resolution_frame (g : Group) (fs : List FSEntry) :
    (g.resolvePatterns fs).name = g.name ∧
    (g.resolvePatterns fs).description = g.description ∧
    (g.resolvePatterns fs).systemPrompt = g.systemPrompt ∧
    (g.resolvePatterns fs).symbols = g.symbols ∧
    (g.resolvePatterns fs).files =
      (g.files.flatMap (fun f => f.resolve fs)).map
        (fun r => { path := r.path, description := r.description }) :=
  ⟨rfl, rfl, rfl, rfl, rfl⟩

end CCW
